import Mathlib

/-!
Verification of the transaction-delay-insurance repository.

The development shallowly embeds the code that the properties below are
about:

* `src/contracts/src/Policy.sol` — the on-chain policy contract
  (`getShareQuote`, `purchaseShare`, `submitClaim`).  Solidity's
  `uint256` is modelled as `Nat`; Solidity 0.8 checked arithmetic
  reverts on under/overflow, which the model renders as an `Except`
  error at the single subtraction whose operands are user controlled
  (`confirmationBlock - broadcastBlock`) and at `msg.value - protocolFee`.
  A reverted call rolls the whole transition back, so a function that
  mutates state returns `Except String PolicyState`: an `error` result
  leaves the pre-state in force.  The external payout transfer to
  `msg.sender` is modelled as succeeding (an externally-owned account
  accepts value).
* `src/rpc/src/cache.js` — the transaction ledger.  Operations on
  distinct transaction hashes touch disjoint entries of the map, so the
  per-record lifecycle is modelled directly: a record evolves under a
  list of `CacheOp`s applied to an initially absent entry.  JavaScript
  field absence is `Option`, and the truthiness test
  `existing && existing.broadcastBlock` is `truthyHeight`, which is
  false both for an absent height and for height `0`.
* `src/rpc/src/blockchain.js` — attestation signing and verification.
  `solidityPackedKeccak256(['bytes32','uint256','uint256'], …)` packs
  each field as a 32-byte big-endian word; the packing is embedded
  exactly (`toBE`).  keccak256 together with the Ethereum
  signed-message envelope is modelled symbolically as an injective
  function of the packed message (`ethDigest`), and ECDSA is modelled as
  an ideal signature scheme: recovery over a digest returns the
  signing key's address exactly when the digest is the signed one
  (`recoverSigner`).  This is the standard symbolic (collision-free,
  unforgeable) model of the hash-and-sign primitive.
* `src/rpc/src/proxy.js` — the `POST /tx/broadcast` route, the
  `eth_sendRawTransaction` interception, and the two confirmation
  monitor loops, modelled over an abstract chain-height function and an
  abstract sequence of poll outcomes.
-/

/-! ## Packed encoding and the symbolic signature scheme
    (src/rpc/src/blockchain.js lines 129-175, Policy.sol lines 184-192) -/

/-- Big-endian base-256 encoding of `n` into exactly `k` bytes (the
encoding `abi.encodePacked` / `solidityPackedKeccak256` applies to a
`uint256` or `bytes32` field, which occupies 32 bytes). -/
def toBE : Nat → Nat → List Nat
  | 0, _ => []
  | k + 1, n => toBE k (n / 256) ++ [n % 256]

/-- Big-endian base-256 decoding, the left inverse of `toBE`. -/
def fromBE (l : List Nat) : Nat :=
  l.foldl (fun a b => a * 256 + b) 0

/-- The argument encoding of `solidityPackedKeccak256(['bytes32',
'uint256','uint256'], [txHash, broadcastBlock, confirmationBlock])` in
`signDelayProof` / `verifyDelayProof` (blockchain.js lines 132-135 and
161-164): the three fields packed back to back, 32 bytes each. -/
def encodePackedOffChain (txHash broadcastBlock confirmationBlock : Nat) : List Nat :=
  toBE 32 txHash ++ toBE 32 broadcastBlock ++ toBE 32 confirmationBlock

/-- The argument encoding of `abi.encodePacked(proof.txHash,
proof.broadcastBlock, proof.confirmationBlock)` recomputed on-chain by
`submitClaim` (Policy.sol lines 185-189): the same three fields packed
back to back, 32 bytes each. -/
def encodePackedOnChain (txHash broadcastBlock confirmationBlock : Nat) : List Nat :=
  toBE 32 txHash ++ toBE 32 broadcastBlock ++ toBE 32 confirmationBlock

/-- Symbolic model of `keccak256` followed by the Ethereum
signed-message envelope (`toEthSignedMessageHash` on-chain,
`signMessage`'s automatic "\x19Ethereum Signed Message:\n32" prefix
off-chain).  In the symbolic (collision-free) model the digest is
identified with the message it is computed from, so the function is
injective by construction. -/
def ethDigest (m : List Nat) : List Nat := m

/-- An ECDSA signature in the ideal-signature model: it determines the
digest that was signed and the address of the key that signed it. -/
structure ECDSASig where
  signedDigest : List Nat
  signerAddr : Nat

/-- Ideal model of signing a digest with the wallet whose address is
`signerAddr` (`this.signer.signMessage` in blockchain.js). -/
def signMessageModel (signerAddr : Nat) (digest : List Nat) : ECDSASig :=
  { signedDigest := digest, signerAddr := signerAddr }

/-- Ideal model of ECDSA public-key recovery (`ethers.verifyMessage`
off-chain, `ECDSA.recover` on-chain): recovery against the digest the
signature was produced over yields the signer's address; against any
other digest it yields no (attester) address. -/
def recoverSigner (digest : List Nat) (sig : ECDSASig) : Option Nat :=
  if sig.signedDigest = digest then some sig.signerAddr else none

/-- The attestation bundle returned by `signDelayProof`
(blockchain.js lines 143-151); the `timestamp` field is dropped as it
plays no role in verification. -/
structure DelayProof where
  txHash : Nat
  broadcastBlock : Nat
  confirmationBlock : Nat
  signature : ECDSASig
  signer : Nat
  messageHash : List Nat

/-- `signDelayProof(txHash, broadcastBlock, confirmationBlock)`
(blockchain.js lines 129-156): pack the three fields, hash, sign with
the service's key, and return the bundle. -/
def signDelayProof (signerAddress txHash broadcastBlock confirmationBlock : Nat) : DelayProof :=
  let digest := ethDigest (encodePackedOffChain txHash broadcastBlock confirmationBlock)
  { txHash := txHash
    broadcastBlock := broadcastBlock
    confirmationBlock := confirmationBlock
    signature := signMessageModel signerAddress digest
    signer := signerAddress
    messageHash := digest }

/-- `verifyDelayProof(proof)` (blockchain.js lines 159-175): recompute
the digest from the proof's three fields, recover the signer, compare
with the service's own address; any recovery failure yields `false`
rather than an exception. -/
def verifyDelayProof (signerAddress : Nat) (p : DelayProof) : Bool :=
  match recoverSigner (ethDigest (encodePackedOffChain p.txHash p.broadcastBlock p.confirmationBlock)) p.signature with
  | some a => a == signerAddress
  | none => false

/-! ## The Policy contract (src/contracts/src/Policy.sol) -/

/-- `struct PolicyConfig` (Policy.sol lines 19-25). -/
structure PolicyConfig where
  delayThreshold : Nat
  premiumPercentage : Nat
  protocolFeePercentage : Nat
  payoutPerIncident : Nat
  active : Bool

/-- `struct UserInsurance` (Policy.sol lines 28-32). -/
structure UserInsurance where
  ethDeposited : Nat
  incidentsRemaining : Nat
  lastClaimBlock : Nat

/-- `struct ClaimProof` (Policy.sol lines 35-40). -/
structure ClaimProof where
  txHash : Nat
  broadcastBlock : Nat
  confirmationBlock : Nat
  rpcSignature : ECDSASig

/-- The contract's mutable storage (Policy.sol lines 54-62).  The two
Solidity mappings are modelled as association lists read through a
default: an absent key holds the zero value, exactly as an EVM mapping
does. -/
structure PolicyState where
  policyConfig : PolicyConfig
  rpcProxyAddress : Nat
  totalPool : Nat
  totalProtocolFees : Nat
  userInsurance : List (Nat × UserInsurance)
  processedClaims : List Nat

/-- Read of `userInsurance[a]`: the stored record, or the all-zero
record for an address never written. -/
def getUserInsurance (s : PolicyState) (a : Nat) : UserInsurance :=
  match s.userInsurance.find? (fun p => p.1 == a) with
  | some p => p.2
  | none => { ethDeposited := 0, incidentsRemaining := 0, lastClaimBlock := 0 }

/-- Write of `userInsurance[a] := u`. -/
def setUserInsurance (m : List (Nat × UserInsurance)) (a : Nat) (u : UserInsurance) : List (Nat × UserInsurance) :=
  match m with
  | [] => [(a, u)]
  | (b, v) :: t => if b == a then (a, u) :: t else (b, v) :: setUserInsurance t a u

/-- `getShareQuote(ethAmount)` (Policy.sol lines 135-146): requires the
policy active and the amount positive, then returns the pool-scaled
premium and the number of incidents covered. -/
def getShareQuote (s : PolicyState) (ethAmount : Nat) : Except String (Nat × Nat) :=
  if s.policyConfig.active then
    if 0 < ethAmount then
      .ok (s.totalPool * s.policyConfig.premiumPercentage / 10000,
           ethAmount / s.policyConfig.payoutPerIncident)
    else .error "ETH amount must be positive"
  else .error "Policy not active"

/-- `purchaseShare()` (Policy.sol lines 151-169), called with
`msg.sender = sender` and `msg.value = value`.  The checked Solidity
subtraction `msg.value - protocolFee` is modelled explicitly: it would
revert (Panic 0x11) if the fee exceeded the value. -/
def purchaseShare (s : PolicyState) (sender value : Nat) : Except String PolicyState :=
  if s.policyConfig.active then
    if 0 < value then
      match getShareQuote s value with
      | .error e => .error e
      | .ok (_premium, incidentsCovered) =>
        if 0 < incidentsCovered then
          let protocolFee := value * s.policyConfig.protocolFeePercentage / 10000
          if protocolFee ≤ value then
            let toPool := value - protocolFee
            let u := getUserInsurance s sender
            .ok { s with
                  userInsurance := setUserInsurance s.userInsurance sender
                    { u with ethDeposited := u.ethDeposited + value,
                             incidentsRemaining := u.incidentsRemaining + incidentsCovered },
                  totalPool := s.totalPool + toPool,
                  totalProtocolFees := s.totalProtocolFees + protocolFee }
          else .error "panic: arithmetic underflow"
        else .error "ETH amount too small for coverage"
    else .error "Must send ETH"
  else .error "Policy not active"

/-- `submitClaim(proof)` (Policy.sol lines 175-217), called with
`msg.sender = sender` at `block.number = blockNumber`.  The checked
subtraction `proof.confirmationBlock - proof.broadcastBlock`
(line 181) reverts on underflow, modelled by the explicit ordering
test.  On success the new state and the transferred payout are
returned; any `error` result is a revert that rolls every provisional
write back — in particular the `processedClaims` marking made before
the pool-sufficiency test is discarded on the "Insufficient pool
funds" path, exactly as the EVM does. -/
def submitClaim (s : PolicyState) (sender blockNumber : Nat) (proof : ClaimProof) :
    Except String (PolicyState × Nat) :=
  if s.policyConfig.active then
    if s.processedClaims.contains proof.txHash then .error "Claim already processed"
    else if 0 < (getUserInsurance s sender).incidentsRemaining then
      if proof.broadcastBlock ≤ proof.confirmationBlock then
        let delay := proof.confirmationBlock - proof.broadcastBlock
        if s.policyConfig.delayThreshold < delay then
          let messageHash := ethDigest (encodePackedOnChain proof.txHash proof.broadcastBlock proof.confirmationBlock)
          match recoverSigner messageHash proof.rpcSignature with
          | some recovered =>
            if recovered == s.rpcProxyAddress then
              let s₁ : PolicyState := { s with processedClaims := proof.txHash :: s.processedClaims }
              let payout := s.policyConfig.payoutPerIncident
              if payout ≤ s₁.totalPool then
                let u := getUserInsurance s₁ sender
                .ok ({ s₁ with
                       userInsurance := setUserInsurance s₁.userInsurance sender
                         { u with incidentsRemaining := u.incidentsRemaining - 1,
                                  lastClaimBlock := blockNumber },
                       totalPool := s₁.totalPool - payout }, payout)
              else .error "Insufficient pool funds"
            else .error "Invalid RPC signature"
          | none => .error "Invalid RPC signature"
        else .error "Delay not sufficient for claim"
      else .error "panic: arithmetic underflow"
    else .error "No incidents remaining"
  else .error "Policy not active"

/-- The storage actually in force after a `submitClaim` call: the new
state on success, the untouched pre-state after a revert. -/
def applyClaim (s : PolicyState) (sender blockNumber : Nat) (proof : ClaimProof) : PolicyState :=
  match submitClaim s sender blockNumber proof with
  | .ok (t, _) => t
  | .error _ => s

/-! ## The transaction ledger (src/rpc/src/cache.js) -/

/-- The `status` field of a cached record. -/
inductive TxStatus where
  | broadcast
  | confirmed
  | failed

/-- A cached transaction record (cache.js).  JavaScript fields that may
be absent are `Option`; the `receipt` payload is irrelevant to the
tracked invariants and is omitted. -/
structure TxRecord where
  broadcastBlock : Option Nat
  broadcastTimestamp : Option Nat
  confirmationBlock : Option Nat
  confirmationTimestamp : Option Nat
  failureTimestamp : Option Nat
  firstSeen : Option Nat
  delay : Option Int
  status : TxStatus
  lastError : Option String

/-- JavaScript truthiness of `existing.broadcastBlock`: false for an
absent field and for the number `0`. -/
def truthyHeight : Option Nat → Bool
  | some n => n != 0
  | none => false

/-- `storeBroadcast(txHash, broadcastBlock, timestamp)` (cache.js lines
50-65): spread the existing record (if any), then overwrite the
broadcast fields and set `status: 'broadcast'`; the first-write
timestamp is preserved when a record already exists. -/
def storeBroadcast (r : Option TxRecord) (h ts : Nat) : TxRecord :=
  { broadcastBlock := some h
    broadcastTimestamp := some ts
    confirmationBlock := match r with | some e => e.confirmationBlock | none => none
    confirmationTimestamp := match r with | some e => e.confirmationTimestamp | none => none
    failureTimestamp := match r with | some e => e.failureTimestamp | none => none
    firstSeen := match r with | some e => e.firstSeen | none => some ts
    delay := match r with | some e => e.delay | none => none
    status := .broadcast
    lastError := match r with | some e => e.lastError | none => none }

/-- `storeConfirmation(txHash, confirmationBlock, receipt, timestamp)`
(cache.js lines 67-93): spread the existing record, overwrite the
confirmation fields, set `status: 'confirmed'`, and compute `delay`
only when a truthy prior broadcast height exists (else `null`). -/
def storeConfirmation (r : Option TxRecord) (h ts : Nat) : TxRecord :=
  { broadcastBlock := match r with | some e => e.broadcastBlock | none => none
    broadcastTimestamp := match r with | some e => e.broadcastTimestamp | none => none
    confirmationBlock := some h
    confirmationTimestamp := some ts
    failureTimestamp := match r with | some e => e.failureTimestamp | none => none
    firstSeen := match r with | some e => e.firstSeen | none => none
    delay := match r with
      | some e => if truthyHeight e.broadcastBlock then some ((h : Int) - (e.broadcastBlock.getD 0 : Int)) else none
      | none => none
    status := .confirmed
    lastError := match r with | some e => e.lastError | none => none }

/-- `storeFailure(txHash, error, timestamp)` (cache.js lines 95-109):
spread the existing record, record the error message and failure
timestamp, set `status: 'failed'`. -/
def storeFailure (r : Option TxRecord) (msg : String) (ts : Nat) : TxRecord :=
  { broadcastBlock := match r with | some e => e.broadcastBlock | none => none
    broadcastTimestamp := match r with | some e => e.broadcastTimestamp | none => none
    confirmationBlock := match r with | some e => e.confirmationBlock | none => none
    confirmationTimestamp := match r with | some e => e.confirmationTimestamp | none => none
    failureTimestamp := some ts
    firstSeen := match r with | some e => e.firstSeen | none => none
    delay := match r with | some e => e.delay | none => none
    status := .failed
    lastError := some msg }

/-- One ledger operation addressed to a fixed transaction hash. -/
inductive CacheOp where
  | broadcastOp (h ts : Nat)
  | confirmOp (h ts : Nat)
  | failOp (msg : String) (ts : Nat)

/-- Apply one ledger operation to the (possibly absent) record of its
transaction hash. -/
def applyCacheOp (r : Option TxRecord) : CacheOp → TxRecord
  | .broadcastOp h ts => storeBroadcast r h ts
  | .confirmOp h ts => storeConfirmation r h ts
  | .failOp msg ts => storeFailure r msg ts

/-- Run a list of ledger operations for one transaction hash starting
from a given entry. -/
def runCacheFrom (r : Option TxRecord) (ops : List CacheOp) : Option TxRecord :=
  ops.foldl (fun acc op => some (applyCacheOp acc op)) r

/-- Run a list of ledger operations for one transaction hash starting
from an absent entry (a fresh hash). -/
def runCacheOps (ops : List CacheOp) : Option TxRecord :=
  runCacheFrom none ops

/-- The status every operation writes into the record it produces. -/
def opStatus : CacheOp → TxStatus
  | .broadcastOp _ _ => .broadcast
  | .confirmOp _ _ => .confirmed
  | .failOp _ _ => .failed

/-- A broadcast operation carrying a nonzero (truthy) height. -/
def isPosBroadcastOp : CacheOp → Bool
  | .broadcastOp h _ => 0 < h
  | _ => false

/-- A terminal operation: a confirmation or a failure. -/
def isTerminalOp : CacheOp → Bool
  | .broadcastOp _ _ => false
  | _ => true

/-- The intended per-record lifecycle: some broadcasts with nonzero
heights, optionally closed by a single confirmation or failure. -/
def LifecycleOps (ops : List CacheOp) : Prop :=
  ∃ bs t, ops = bs ++ t ∧ (∀ op ∈ bs, isPosBroadcastOp op = true) ∧
    (t = [] ∨ ∃ op, t = [op] ∧ isTerminalOp op = true)

/-! ## The confirmation monitor loops (src/rpc/src/proxy.js) -/

/-- Outcome of one receipt poll: a receipt naming the confirmation
block, no receipt yet, or a thrown error. -/
inductive PollResult where
  | receipt (h : Nat)
  | pendingPoll
  | errorPoll

/-- Terminal outcome of a monitor loop: confirmation stored, failure
stored, or budget exhausted with the record left in broadcast state. -/
inductive MonitorOutcome where
  | confirmedAt (h : Nat)
  | failed
  | timedOut

/-- The loop body of `monitorTransactionInBackground` (proxy.js lines
497-559): `poll i` is the outcome of the i-th receipt poll, `fuel` the
number of polls still allowed.  A receipt stores the confirmation; an
error stores a failure immediately and ends the loop (the catch block
calls `storeFailure` and schedules no further poll); a pending poll
consumes one retry, and exhausting the budget only logs a warning. -/
def monitorBgLoop (poll : Nat → PollResult) : Nat → Nat → MonitorOutcome
  | _, 0 => .timedOut
  | i, fuel + 1 =>
    match poll i with
    | .receipt h => .confirmedAt h
    | .errorPoll => .failed
    | .pendingPoll => monitorBgLoop poll (i + 1) fuel

/-- `monitorTransactionInBackground` with its budget of
`maxRetries = 60` polls (proxy.js line 498). -/
def monitorTransactionInBackground (poll : Nat → PollResult) : MonitorOutcome :=
  monitorBgLoop poll 0 60

/-- The loop body of `monitorTransaction` (proxy.js lines 561-599):
a receipt stores the confirmation; both a pending poll and a thrown
error consume one attempt and are retried while attempts remain; on
the final attempt a pending poll times out (record left in broadcast
state) while an error stores a failure. -/
def monitorTxLoop (poll : Nat → PollResult) : Nat → Nat → MonitorOutcome
  | _, 0 => .timedOut
  | i, fuel + 1 =>
    match poll i with
    | .receipt h => .confirmedAt h
    | .pendingPoll => if fuel = 0 then .timedOut else monitorTxLoop poll (i + 1) fuel
    | .errorPoll => if fuel = 0 then .failed else monitorTxLoop poll (i + 1) fuel

/-- `monitorTransaction` with its budget of `maxAttempts = 60` polls
(proxy.js line 562). -/
def monitorTransaction (poll : Nat → PollResult) : MonitorOutcome :=
  monitorTxLoop poll 0 60

/-! ## The broadcast interception paths (src/rpc/src/proxy.js) -/

/-- The observable trace of one broadcast handler run over an abstract
chain: at which instant the chain height was read, at which instant the
transaction was forwarded to the network, and which height was stored
as the record's broadcast height. -/
structure BroadcastTrace where
  heightReadAt : Nat
  forwardedAt : Nat
  storedBroadcastBlock : Nat

/-- The `POST /tx/broadcast` route (proxy.js lines 174-217) run against
the abstract chain `chain : time → height`, starting at instant `t0`:
`getCurrentBlockNumber()` is evaluated first (line 184), the
transaction is forwarded by `sendTransaction` strictly afterwards
(line 204), and `storeBroadcast` receives the height read at `t0`
(line 207). -/
def txBroadcastRoute (chain : Nat → Nat) (t0 : Nat) : BroadcastTrace :=
  { heightReadAt := t0
    forwardedAt := t0 + 1
    storedBroadcastBlock := chain t0 }

/-- `handleTransactionBroadcast` for an intercepted
`eth_sendRawTransaction` (proxy.js lines 422-475): the height is read
at line 437, the payload is forwarded upstream strictly afterwards at
line 446, and `storeBroadcast` receives the height read first
(line 457). -/
def handleTransactionBroadcast (chain : Nat → Nat) (t0 : Nat) : BroadcastTrace :=
  { heightReadAt := t0
    forwardedAt := t0 + 1
    storedBroadcastBlock := chain t0 }

/-! ## Concrete example data used to witness the claim theorems -/

/-- Example policy: 10-block threshold, 1% premium, 10% fee, payout of
1 wei per incident, attester address 7; account 1 deposited 3 wei and
holds 2 incidents; the pool holds 5 wei. -/
def exampleState : PolicyState :=
  { policyConfig := { delayThreshold := 10, premiumPercentage := 100,
                      protocolFeePercentage := 1000, payoutPerIncident := 1, active := true },
    rpcProxyAddress := 7, totalPool := 5, totalProtocolFees := 0,
    userInsurance := [(1, { ethDeposited := 3, incidentsRemaining := 2, lastClaimBlock := 0 })],
    processedClaims := [] }

/-- `exampleState` with an empty pool. -/
def exampleStateEmptyPool : PolicyState :=
  { exampleState with totalPool := 0 }

/-- A claim for transaction 77 broadcast at height 100 and confirmed
at height 116 (delay 16), attested by the example attester. -/
def exampleProof : ClaimProof :=
  { txHash := 77, broadcastBlock := 100, confirmationBlock := 116,
    rpcSignature := (signDelayProof 7 77 100 116).signature }

/-- The state after account 1 successfully claims `exampleProof`
against `exampleState` at block 200. -/
def exampleStateAfterClaim : PolicyState :=
  { exampleState with
    processedClaims := [77],
    userInsurance := [(1, { ethDeposited := 3, incidentsRemaining := 1, lastClaimBlock := 200 })],
    totalPool := 4 }

/-- A claim whose confirmation height 110 sits exactly at the
10-block threshold above broadcast height 100. -/
def exampleProofAtThreshold : ClaimProof :=
  { txHash := 77, broadcastBlock := 100, confirmationBlock := 110,
    rpcSignature := (signDelayProof 7 77 100 110).signature }

/-- A claim whose confirmation height 111 sits one block above the
threshold. -/
def exampleProofAboveThreshold : ClaimProof :=
  { txHash := 77, broadcastBlock := 100, confirmationBlock := 111,
    rpcSignature := (signDelayProof 7 77 100 111).signature }

/-- A malformed claim whose confirmation height precedes its broadcast
height. -/
def exampleProofUnderflow : ClaimProof :=
  { txHash := 78, broadcastBlock := 100, confirmationBlock := 99,
    rpcSignature := (signDelayProof 7 78 100 99).signature }

/-! ## Properties of the packed encoding -/

/-- `toBE k n` always occupies exactly `k` bytes. -/
theorem toBE_length (k : Nat) : ∀ n, (toBE k n).length = k := by
  induction k with
  | zero => intro n; rfl
  | succ k ih => intro n; simp [toBE, ih]

/-- Decoding after appending one byte. -/
theorem fromBE_append_byte (l : List Nat) (x : Nat) :
    fromBE (l ++ [x]) = fromBE l * 256 + x := by
  simp [fromBE, List.foldl_append]

/-- `fromBE` decodes `toBE k n` to `n` modulo the field width. -/
theorem fromBE_toBE (k : Nat) : ∀ n, fromBE (toBE k n) = n % 256 ^ k := by
  induction k with
  | zero => intro n; simp [toBE, fromBE, Nat.mod_one]
  | succ k ih =>
    intro n
    rw [toBE, fromBE_append_byte, ih]
    have hpow : (256 : Nat) ^ (k + 1) = 256 * 256 ^ k := by
      rw [pow_succ, Nat.mul_comm]
    have e1 : n / 256 % 256 ^ k = n % 256 ^ (k + 1) / 256 := by
      rw [hpow]
      exact (Nat.mod_mul_right_div_self n 256 (256 ^ k)).symm
    have e2 : n % 256 = n % 256 ^ (k + 1) % 256 := by
      rw [Nat.mod_mod_of_dvd n ⟨256 ^ k, hpow⟩]
    rw [e1, e2, Nat.mul_comm]
    have := Nat.div_add_mod (n % 256 ^ (k + 1)) 256
    omega

/-- A `uint256` value is recovered exactly from its 32-byte word. -/
theorem toBE32_inj {m n : Nat} (hm : m < 256 ^ 32) (hn : n < 256 ^ 32)
    (h : toBE 32 m = toBE 32 n) : m = n := by
  have hf := congrArg fromBE h
  rwa [fromBE_toBE, fromBE_toBE, Nat.mod_eq_of_lt hm, Nat.mod_eq_of_lt hn] at hf

/-- `2 ^ 256 = 256 ^ 32`, relating the `uint256` bound to the 32-byte
field width. -/
theorem two_pow_256_eq : (2 : Nat) ^ 256 = 256 ^ 32 := by
  norm_num [pow_mul]

/-- The packed `(bytes32, uint256, uint256)` encoding is injective on
in-range fields: the fixed 32-byte widths leave no ambiguity. -/
theorem encodePacked_inj {t a b t' a' b' : Nat}
    (ht : t < 2 ^ 256) (ha : a < 2 ^ 256) (hb : b < 2 ^ 256)
    (ht' : t' < 2 ^ 256) (ha' : a' < 2 ^ 256) (hb' : b' < 2 ^ 256)
    (h : encodePackedOffChain t a b = encodePackedOffChain t' a' b') :
    t = t' ∧ a = a' ∧ b = b' := by
  rw [two_pow_256_eq] at ht ha hb ht' ha' hb'
  unfold encodePackedOffChain at h
  obtain ⟨h1, h2⟩ := List.append_inj h (by simp [toBE_length])
  obtain ⟨h3, h4⟩ := List.append_inj h1 (by simp [toBE_length])
  exact ⟨toBE32_inj ht ht' h3, toBE32_inj ha ha' h4, toBE32_inj hb hb' h2⟩

/-- C6: verifying the attestation produced by `signDelayProof` on the
identical `(txHash, broadcastHeight, confirmationHeight)` triple
returns true; verifying it after mutating any one of the three fields
— or after replaying the signature for a different height pair —
returns false, because the fixed-width order-sensitive packed encoding
is injective; and the off-chain digest encoding coincides with the one
recomputed on-chain by `submitClaim`, whose recovery accepts the
off-chain signature. -/
theorem delayProof_sign_then_verify (addr tx a b : Nat)
    (htx : tx < 2 ^ 256) (ha : a < 2 ^ 256) (hb : b < 2 ^ 256) :
    verifyDelayProof addr (signDelayProof addr tx a b) = true
    ∧ (∀ tx', tx' < 2 ^ 256 → tx' ≠ tx →
        verifyDelayProof addr { signDelayProof addr tx a b with txHash := tx' } = false)
    ∧ (∀ a', a' < 2 ^ 256 → a' ≠ a →
        verifyDelayProof addr { signDelayProof addr tx a b with broadcastBlock := a' } = false)
    ∧ (∀ b', b' < 2 ^ 256 → b' ≠ b →
        verifyDelayProof addr { signDelayProof addr tx a b with confirmationBlock := b' } = false)
    ∧ (∀ a' b', a' < 2 ^ 256 → b' < 2 ^ 256 → ¬(a' = a ∧ b' = b) →
        verifyDelayProof addr
          { signDelayProof addr tx a b with broadcastBlock := a', confirmationBlock := b' } = false)
    ∧ encodePackedOffChain tx a b = encodePackedOnChain tx a b
    ∧ recoverSigner (ethDigest (encodePackedOnChain tx a b)) (signDelayProof addr tx a b).signature
        = some addr := by
  refine ⟨?_, ?_, ?_, ?_, ?_, rfl, ?_⟩
  · simp [verifyDelayProof, signDelayProof, recoverSigner, signMessageModel, ethDigest]
  · intro tx' htx' hne
    have hdig : encodePackedOffChain tx a b ≠ encodePackedOffChain tx' a b := by
      intro hEq
      exact hne ((encodePacked_inj htx ha hb htx' ha hb hEq).1).symm
    simp [verifyDelayProof, signDelayProof, recoverSigner, signMessageModel, ethDigest, hdig]
  · intro a' ha' hne
    have hdig : encodePackedOffChain tx a b ≠ encodePackedOffChain tx a' b := by
      intro hEq
      exact hne ((encodePacked_inj htx ha hb htx ha' hb hEq).2.1).symm
    simp [verifyDelayProof, signDelayProof, recoverSigner, signMessageModel, ethDigest, hdig]
  · intro b' hb' hne
    have hdig : encodePackedOffChain tx a b ≠ encodePackedOffChain tx a b' := by
      intro hEq
      exact hne ((encodePacked_inj htx ha hb htx ha hb' hEq).2.2).symm
    simp [verifyDelayProof, signDelayProof, recoverSigner, signMessageModel, ethDigest, hdig]
  · intro a' b' ha' hb' hne
    have hdig : encodePackedOffChain tx a b ≠ encodePackedOffChain tx a' b' := by
      intro hEq
      obtain ⟨-, h2, h3⟩ := encodePacked_inj htx ha hb htx ha' hb' hEq
      exact hne ⟨h2.symm, h3.symm⟩
    simp [verifyDelayProof, signDelayProof, recoverSigner, signMessageModel, ethDigest, hdig]
  · simp [recoverSigner, signDelayProof, signMessageModel, ethDigest,
      encodePackedOffChain, encodePackedOnChain]

/-- Witness for C6 at a concrete triple: signing `(77, 100, 116)` with
attester address `7` verifies, and the same signature presented with
confirmation height `109` is rejected. -/
theorem delayProof_sign_then_verify_witness :
    (77 : Nat) < 2 ^ 256 ∧
    verifyDelayProof 7 (signDelayProof 7 77 100 116) = true ∧
    verifyDelayProof 7 { signDelayProof 7 77 100 116 with confirmationBlock := 109 } = false := by
  have h := delayProof_sign_then_verify 7 77 100 116 (by norm_num) (by norm_num) (by norm_num)
  exact ⟨by norm_num, h.1, h.2.2.2.1 109 (by norm_num) (by norm_num)⟩

/-! ## Mapping lemmas for the modelled Solidity mappings -/

/-- Reading the key just written returns the written record. -/
theorem lookup_set_self (m : List (Nat × UserInsurance)) (a : Nat) (u : UserInsurance) :
    (setUserInsurance m a u).find? (fun p => p.1 == a) = some (a, u) := by
  induction m with
  | nil => simp [setUserInsurance]
  | cons hd tl ih =>
    obtain ⟨b, v⟩ := hd
    by_cases hba : b = a
    · subst hba
      simp [setUserInsurance]
    · simp [setUserInsurance, hba, List.find?, ih]

/-- Writing one key leaves every other key's record unchanged. -/
theorem lookup_set_other (m : List (Nat × UserInsurance)) (a : Nat) (u : UserInsurance)
    (c : Nat) (hca : c ≠ a) :
    (setUserInsurance m a u).find? (fun p => p.1 == c) = m.find? (fun p => p.1 == c) := by
  have hac : (a == c) = false := beq_eq_false_iff_ne.mpr (Ne.symm hca)
  induction m with
  | nil =>
    simp [setUserInsurance, List.find?, hac]
  | cons hd tl ih =>
    obtain ⟨b, v⟩ := hd
    by_cases hba : b = a
    · subst hba
      simp [setUserInsurance, List.find?, hac]
    · simp [setUserInsurance, hba, List.find?]
      by_cases hbc : b = c
      · simp [hbc]
      · simp [hbc, ih]

/-- C5: under an active policy and a positive amount, `getShareQuote`
returns the pool-scaled premium `totalPool * premiumBasisPoints / 10000`
— independent of the quoted amount — together with
`floor(value / payoutPerIncident)` incidents; in particular, quoting
`k * payoutPerIncident` covers exactly `k` incidents. -/
theorem getShareQuote_formula (s : PolicyState) (v k : Nat)
    (hact : s.policyConfig.active = true) :
    (0 < v → getShareQuote s v =
      .ok (s.totalPool * s.policyConfig.premiumPercentage / 10000,
           v / s.policyConfig.payoutPerIncident))
    ∧ (0 < s.policyConfig.payoutPerIncident → 1 ≤ k →
        getShareQuote s (k * s.policyConfig.payoutPerIncident) =
          .ok (s.totalPool * s.policyConfig.premiumPercentage / 10000, k)) := by
  constructor
  · intro hv
    simp [getShareQuote, hact, hv]
  · intro hpay hk
    have hv : 0 < k * s.policyConfig.payoutPerIncident := Nat.mul_pos hk hpay
    simp [getShareQuote, hact, hv, Nat.mul_div_cancel _ hpay]

/-- Witness for C5: a pool of 200 wei at a 1% premium quotes a premium
of 2 wei, and 15 wei of deposit at 5 wei per incident covers 3
incidents; 3 incident units exactly cover k = 3. -/
theorem getShareQuote_formula_witness :
    (0 : Nat) < 15 ∧
    getShareQuote
      { policyConfig := { delayThreshold := 10, premiumPercentage := 100,
                          protocolFeePercentage := 1000, payoutPerIncident := 5, active := true },
        rpcProxyAddress := 7, totalPool := 200, totalProtocolFees := 0,
        userInsurance := [], processedClaims := [] } 15 = .ok (2, 3) := by
  have h := (getShareQuote_formula
    { policyConfig := { delayThreshold := 10, premiumPercentage := 100,
                        protocolFeePercentage := 1000, payoutPerIncident := 5, active := true },
      rpcProxyAddress := 7, totalPool := 200, totalProtocolFees := 0,
      userInsurance := [], processedClaims := [] } 15 3 rfl).2 (by norm_num) (by norm_num)
  exact ⟨by norm_num, h⟩

/-- C4: under an active policy, a positive value whose coverage
`floor(v / payoutPerIncident)` is positive is split into
`protocolFee = v * protocolFeeBasisPoints / 10000` and
`toPool = v - protocolFee`; the purchase credits the buyer's deposit
and incident count and the two totals, conserving the full value
between pool and fees, and a positive value too small for one incident
is rejected with the "amount too small" reason. -/
theorem purchaseShare_value_split (s : PolicyState) (sender v : Nat)
    (hact : s.policyConfig.active = true)
    (hfee : s.policyConfig.protocolFeePercentage ≤ 10000) :
    (0 < v → 0 < v / s.policyConfig.payoutPerIncident →
      ∃ s', purchaseShare s sender v = .ok s' ∧
        getUserInsurance s' sender =
          { ethDeposited := (getUserInsurance s sender).ethDeposited + v,
            incidentsRemaining := (getUserInsurance s sender).incidentsRemaining
              + v / s.policyConfig.payoutPerIncident,
            lastClaimBlock := (getUserInsurance s sender).lastClaimBlock } ∧
        (∀ c, c ≠ sender → getUserInsurance s' c = getUserInsurance s c) ∧
        s'.totalPool = s.totalPool + (v - v * s.policyConfig.protocolFeePercentage / 10000) ∧
        s'.totalProtocolFees
          = s.totalProtocolFees + v * s.policyConfig.protocolFeePercentage / 10000 ∧
        s'.policyConfig = s.policyConfig ∧
        s'.processedClaims = s.processedClaims ∧
        v * s.policyConfig.protocolFeePercentage / 10000
          + (v - v * s.policyConfig.protocolFeePercentage / 10000) = v)
    ∧ (0 < v → v / s.policyConfig.payoutPerIncident = 0 →
        purchaseShare s sender v = .error "ETH amount too small for coverage") := by
  have hfv : v * s.policyConfig.protocolFeePercentage / 10000 ≤ v := by
    calc v * s.policyConfig.protocolFeePercentage / 10000
        ≤ v * 10000 / 10000 := Nat.div_le_div_right (Nat.mul_le_mul_left v hfee)
      _ = v := by omega
  constructor
  · intro hv hinc
    have hq : getShareQuote s v =
        .ok (s.totalPool * s.policyConfig.premiumPercentage / 10000,
             v / s.policyConfig.payoutPerIncident) := by
      simp [getShareQuote, hact, hv]
    refine ⟨{ s with
              userInsurance := setUserInsurance s.userInsurance sender
                { getUserInsurance s sender with
                  ethDeposited := (getUserInsurance s sender).ethDeposited + v,
                  incidentsRemaining := (getUserInsurance s sender).incidentsRemaining
                    + v / s.policyConfig.payoutPerIncident },
              totalPool := s.totalPool + (v - v * s.policyConfig.protocolFeePercentage / 10000),
              totalProtocolFees := s.totalProtocolFees
                + v * s.policyConfig.protocolFeePercentage / 10000 },
      ?_, ?_, ?_, rfl, rfl, rfl, rfl, by omega⟩
    · simp [purchaseShare, hact, hv, hq, hinc, hfv]
    · simp [getUserInsurance, lookup_set_self]
    · intro c hc
      simp [getUserInsurance, lookup_set_other s.userInsurance sender _ c hc]
  · intro hv hzero
    simp [purchaseShare, getShareQuote, hact, hv, hzero]

/-- Witness for C4: depositing 1000 wei at a 10% protocol fee and 100
wei per incident yields 10 incidents, 900 wei to the pool and 100 wei
of fees, with the full value conserved. -/
theorem purchaseShare_value_split_witness :
    (0 : Nat) < 1000 ∧
    ∃ s', purchaseShare
      { policyConfig := { delayThreshold := 10, premiumPercentage := 100,
                          protocolFeePercentage := 1000, payoutPerIncident := 100, active := true },
        rpcProxyAddress := 7, totalPool := 0, totalProtocolFees := 0,
        userInsurance := [], processedClaims := [] } 1 1000 = .ok s' ∧
      s'.totalPool = 0 + (1000 - 1000 * 1000 / 10000) ∧
      s'.totalProtocolFees = 0 + 1000 * 1000 / 10000 := by
  obtain ⟨s', h1, _, _, h4, h5, _⟩ :=
    (purchaseShare_value_split
      { policyConfig := { delayThreshold := 10, premiumPercentage := 100,
                          protocolFeePercentage := 1000, payoutPerIncident := 100, active := true },
        rpcProxyAddress := 7, totalPool := 0, totalProtocolFees := 0,
        userInsurance := [], processedClaims := [] } 1 1000 rfl (by norm_num)).1
      (by norm_num) (by norm_num)
  exact ⟨by norm_num, s', h1, h4, h5⟩

/-- Evaluation of `submitClaim` when every precondition holds and the
pool covers the payout: the claim is marked processed, the caller
loses one incident and gains the payout, and the pool shrinks by it. -/
theorem submitClaim_ok_eval (s : PolicyState) (sender blockNumber : Nat) (proof : ClaimProof)
    (hact : s.policyConfig.active = true)
    (hproc : s.processedClaims.contains proof.txHash = false)
    (hinc : 0 < (getUserInsurance s sender).incidentsRemaining)
    (hord : proof.broadcastBlock ≤ proof.confirmationBlock)
    (hdelay : s.policyConfig.delayThreshold < proof.confirmationBlock - proof.broadcastBlock)
    (hsig : recoverSigner
        (ethDigest (encodePackedOnChain proof.txHash proof.broadcastBlock proof.confirmationBlock))
        proof.rpcSignature = some s.rpcProxyAddress)
    (hpool : s.policyConfig.payoutPerIncident ≤ s.totalPool) :
    submitClaim s sender blockNumber proof =
      .ok ({ s with
             processedClaims := proof.txHash :: s.processedClaims,
             userInsurance := setUserInsurance s.userInsurance sender
               { getUserInsurance s sender with
                 incidentsRemaining := (getUserInsurance s sender).incidentsRemaining - 1,
                 lastClaimBlock := blockNumber },
             totalPool := s.totalPool - s.policyConfig.payoutPerIncident },
           s.policyConfig.payoutPerIncident) := by
  have hmem : proof.txHash ∉ s.processedClaims := by simpa using hproc
  simp only [getUserInsurance] at hinc
  simp [submitClaim, hact, hmem, hinc, hord, hdelay, hsig, hpool, getUserInsurance]

/-- Evaluation of `submitClaim` when every precondition holds but the
pool cannot cover the payout: the call reverts with "Insufficient pool
funds". -/
theorem submitClaim_pool_insufficient_eval (s : PolicyState) (sender blockNumber : Nat)
    (proof : ClaimProof)
    (hact : s.policyConfig.active = true)
    (hproc : s.processedClaims.contains proof.txHash = false)
    (hinc : 0 < (getUserInsurance s sender).incidentsRemaining)
    (hord : proof.broadcastBlock ≤ proof.confirmationBlock)
    (hdelay : s.policyConfig.delayThreshold < proof.confirmationBlock - proof.broadcastBlock)
    (hsig : recoverSigner
        (ethDigest (encodePackedOnChain proof.txHash proof.broadcastBlock proof.confirmationBlock))
        proof.rpcSignature = some s.rpcProxyAddress)
    (hpool : s.totalPool < s.policyConfig.payoutPerIncident) :
    submitClaim s sender blockNumber proof = .error "Insufficient pool funds" := by
  have hpool' : ¬ s.policyConfig.payoutPerIncident ≤ s.totalPool := by omega
  have hmem : proof.txHash ∉ s.processedClaims := by simpa using hproc
  have hinc0 := hinc
  simp only [getUserInsurance] at hinc
  simp [submitClaim, hact, hmem, hinc, hord, hdelay, hsig, hpool']
  omega

/-- Inversion of a successful `submitClaim`: the policy was active, the
claim was not yet processed, the heights were ordered, and the
post-state keeps the configuration while recording the claim's hash as
processed. -/
theorem submitClaim_ok_inv {s : PolicyState} {sender blockNumber : Nat} {proof : ClaimProof}
    {s₁ : PolicyState} {pay : Nat}
    (h : submitClaim s sender blockNumber proof = .ok (s₁, pay)) :
    s.policyConfig.active = true ∧
    s.processedClaims.contains proof.txHash = false ∧
    proof.broadcastBlock ≤ proof.confirmationBlock ∧
    s₁.policyConfig = s.policyConfig ∧
    s₁.rpcProxyAddress = s.rpcProxyAddress ∧
    s₁.processedClaims = proof.txHash :: s.processedClaims := by
  simp only [submitClaim] at h
  split at h
  case isFalse hact => exact absurd h (by simp)
  case isTrue hact =>
    split at h
    case isTrue hmemb => exact absurd h (by simp)
    case isFalse hmemb =>
      split at h
      case isFalse => exact absurd h (by simp)
      case isTrue hinc =>
        split at h
        case isFalse => exact absurd h (by simp)
        case isTrue hord =>
          split at h
          case isFalse => exact absurd h (by simp)
          case isTrue hdel =>
            split at h
            case h_2 => exact absurd h (by simp)
            case h_1 recovered hrec =>
              split at h
              case isFalse => exact absurd h (by simp)
              case isTrue hbeq =>
                split at h
                case isFalse => exact absurd h (by simp)
                case isTrue hpool =>
                  rw [Except.ok.injEq, Prod.mk.injEq] at h
                  obtain ⟨hs, -⟩ := h
                  refine ⟨hact, by simpa using hmemb, hord, ?_, ?_, ?_⟩ <;>
                    rw [← hs]

/-- C1: a valid claim succeeds at most once.  After a successful
`submitClaim` the claim's transaction hash is recorded in
`processedClaims`, and resubmitting the identical proof — by any
caller, at any block — is rejected with the "already processed"
revert ("Claim already processed" in the code), leaving the pool,
protocol-fee and per-user coverage state exactly as after the first
submission. -/
theorem submitClaim_no_double_payout (s : PolicyState) (sender blockNumber : Nat)
    (proof : ClaimProof) (s₁ : PolicyState) (pay : Nat)
    (h : submitClaim s sender blockNumber proof = .ok (s₁, pay)) :
    s₁.processedClaims.contains proof.txHash = true ∧
    ∀ sender₂ blockNumber₂,
      submitClaim s₁ sender₂ blockNumber₂ proof = .error "Claim already processed" ∧
      applyClaim s₁ sender₂ blockNumber₂ proof = s₁ := by
  obtain ⟨hact, hmemb, hord, hcfg, hrpc, hproc⟩ := submitClaim_ok_inv h
  have hmem2 : proof.txHash ∈ s₁.processedClaims := by
    rw [hproc]; exact List.mem_cons_self _ _
  refine ⟨by simpa using hmem2, ?_⟩
  intro sender₂ blockNumber₂
  have herr : submitClaim s₁ sender₂ blockNumber₂ proof = .error "Claim already processed" := by
    simp [submitClaim, hcfg, hact, hmem2]
  exact ⟨herr, by simp [applyClaim, herr]⟩

/-- Witness for C1: the example claim succeeds against the example
state, and the identical resubmission by another caller is rejected
without changing the state. -/
theorem submitClaim_no_double_payout_witness :
    submitClaim exampleState 1 200 exampleProof = .ok (exampleStateAfterClaim, 1) ∧
    exampleStateAfterClaim.processedClaims.contains exampleProof.txHash = true ∧
    submitClaim exampleStateAfterClaim 2 201 exampleProof = .error "Claim already processed" ∧
    applyClaim exampleStateAfterClaim 2 201 exampleProof = exampleStateAfterClaim := by
  have h : submitClaim exampleState 1 200 exampleProof = .ok (exampleStateAfterClaim, 1) := rfl
  obtain ⟨hc, hall⟩ := submitClaim_no_double_payout exampleState 1 200 exampleProof
    exampleStateAfterClaim 1 h
  exact ⟨h, hc, (hall 2 201).1, (hall 2 201).2⟩

/-- C2: when every `submitClaim` precondition holds but the pool
cannot cover the payout, the whole claim reverts with "Insufficient
pool funds": no state change persists — in particular the claim's
hash is not left in `processedClaims` — and the identical proof
succeeds later against any state (e.g. after replenishing purchases)
that is still active, unprocessed for this hash, covered for the
caller, configured with the same threshold and attester, and whose
pool now covers the payout. -/
theorem submitClaim_atomic_underfunded (s : PolicyState) (sender blockNumber : Nat)
    (proof : ClaimProof)
    (hact : s.policyConfig.active = true)
    (hproc : s.processedClaims.contains proof.txHash = false)
    (hinc : 0 < (getUserInsurance s sender).incidentsRemaining)
    (hord : proof.broadcastBlock ≤ proof.confirmationBlock)
    (hdelay : s.policyConfig.delayThreshold < proof.confirmationBlock - proof.broadcastBlock)
    (hsig : recoverSigner
        (ethDigest (encodePackedOnChain proof.txHash proof.broadcastBlock proof.confirmationBlock))
        proof.rpcSignature = some s.rpcProxyAddress)
    (hpool : s.totalPool < s.policyConfig.payoutPerIncident) :
    submitClaim s sender blockNumber proof = .error "Insufficient pool funds" ∧
    applyClaim s sender blockNumber proof = s ∧
    ∀ t : PolicyState,
      t.policyConfig.active = true →
      t.processedClaims.contains proof.txHash = false →
      0 < (getUserInsurance t sender).incidentsRemaining →
      t.policyConfig.delayThreshold = s.policyConfig.delayThreshold →
      t.rpcProxyAddress = s.rpcProxyAddress →
      t.policyConfig.payoutPerIncident ≤ t.totalPool →
      ∃ t' p, submitClaim t sender blockNumber proof = .ok (t', p) := by
  have herr := submitClaim_pool_insufficient_eval s sender blockNumber proof
    hact hproc hinc hord hdelay hsig hpool
  refine ⟨herr, by simp [applyClaim, herr], ?_⟩
  intro t tact tproc tinc tthr trpc tpool
  refine ⟨_, _, submitClaim_ok_eval t sender blockNumber proof tact tproc tinc hord ?_ ?_ tpool⟩
  · rw [tthr]; exact hdelay
  · rw [trpc]; exact hsig

/-- Witness for C2: against the empty-pool example state the example
claim reverts with "Insufficient pool funds" and changes nothing, and
the identical claim succeeds against the funded example state. -/
theorem submitClaim_atomic_underfunded_witness :
    submitClaim exampleStateEmptyPool 1 200 exampleProof = .error "Insufficient pool funds" ∧
    applyClaim exampleStateEmptyPool 1 200 exampleProof = exampleStateEmptyPool ∧
    ∃ t' p, submitClaim exampleState 1 200 exampleProof = .ok (t', p) := by
  obtain ⟨h1, h2, h3⟩ := submitClaim_atomic_underfunded exampleStateEmptyPool 1 200 exampleProof
    rfl rfl (by decide) (by decide) (by decide) rfl (by decide)
  exact ⟨h1, h2, h3 exampleState rfl rfl (by decide) rfl rfl (by decide)⟩

/-- C3: the delay comparison is strictly greater-than.  With an active
policy, an unprocessed claim hash and remaining coverage, a claim whose
confirmation height exceeds its broadcast height by exactly
`delayThreshold` is rejected with the "delay not sufficient" revert
(regardless of its signature, which is checked later); with a valid
attester signature, a claim exceeding it by `delayThreshold + 1`
passes the delay check and proceeds to the payout stage — it succeeds
when the pool covers the payout and fails only with "Insufficient
pool funds" otherwise. -/
theorem submitClaim_threshold_strict (s : PolicyState) (sender blockNumber tx a : Nat)
    (sig : ECDSASig)
    (hact : s.policyConfig.active = true)
    (hproc : s.processedClaims.contains tx = false)
    (hinc : 0 < (getUserInsurance s sender).incidentsRemaining) :
    (submitClaim s sender blockNumber
        { txHash := tx, broadcastBlock := a,
          confirmationBlock := a + s.policyConfig.delayThreshold, rpcSignature := sig }
      = .error "Delay not sufficient for claim") ∧
    (recoverSigner (ethDigest (encodePackedOnChain tx a (a + s.policyConfig.delayThreshold + 1)))
        sig = some s.rpcProxyAddress →
      (s.policyConfig.payoutPerIncident ≤ s.totalPool →
        ∃ s' p, submitClaim s sender blockNumber
          { txHash := tx, broadcastBlock := a,
            confirmationBlock := a + s.policyConfig.delayThreshold + 1, rpcSignature := sig }
          = .ok (s', p)) ∧
      (s.totalPool < s.policyConfig.payoutPerIncident →
        submitClaim s sender blockNumber
          { txHash := tx, broadcastBlock := a,
            confirmationBlock := a + s.policyConfig.delayThreshold + 1, rpcSignature := sig }
          = .error "Insufficient pool funds")) := by
  constructor
  · have hmem : tx ∉ s.processedClaims := by simpa using hproc
    have hinc0 := hinc
    simp only [getUserInsurance] at hinc
    have hd : a + s.policyConfig.delayThreshold - a = s.policyConfig.delayThreshold := by omega
    simp [submitClaim, hact, hmem, hinc, Nat.le_add_right, hd]
    omega
  · intro hsig
    constructor
    · intro hpool
      exact ⟨_, _, submitClaim_ok_eval s sender blockNumber _ hact hproc hinc
        (show a ≤ a + s.policyConfig.delayThreshold + 1 by omega)
        (show s.policyConfig.delayThreshold < a + s.policyConfig.delayThreshold + 1 - a by omega)
        hsig hpool⟩
    · intro hpool
      exact submitClaim_pool_insufficient_eval s sender blockNumber _ hact hproc hinc
        (show a ≤ a + s.policyConfig.delayThreshold + 1 by omega)
        (show s.policyConfig.delayThreshold < a + s.policyConfig.delayThreshold + 1 - a by omega)
        hsig hpool

/-- Witness for C3: the example claim confirmed at height 110
(delay exactly the 10-block threshold) is rejected, while the one
confirmed at height 111 succeeds against the funded example state. -/
theorem submitClaim_threshold_strict_witness :
    submitClaim exampleState 1 200 exampleProofAtThreshold
      = .error "Delay not sufficient for claim" ∧
    ∃ s' p, submitClaim exampleState 1 200 exampleProofAboveThreshold = .ok (s', p) := by
  have h := submitClaim_threshold_strict exampleState 1 200 77 100
    exampleProofAboveThreshold.rpcSignature rfl rfl (by decide)
  exact ⟨h.1, (h.2 rfl).1 (by decide)⟩

/-- C10: a claim whose confirmation height precedes its broadcast
height always reverts — the checked `uint256` subtraction at
Policy.sol line 181 traps on underflow when reached, and every earlier
precondition failure also reverts — so such a claim is never paid out,
is never marked processed, and leaves all contract state unchanged. -/
theorem submitClaim_underflow_reverts (s : PolicyState) (sender blockNumber : Nat)
    (proof : ClaimProof)
    (h : proof.confirmationBlock < proof.broadcastBlock) :
    (∃ msg, submitClaim s sender blockNumber proof = .error msg) ∧
    applyClaim s sender blockNumber proof = s ∧
    ∀ s' pay, submitClaim s sender blockNumber proof ≠ .ok (s', pay) := by
  have hord : ¬ proof.broadcastBlock ≤ proof.confirmationBlock := by omega
  have herr : ∃ msg, submitClaim s sender blockNumber proof = .error msg := by
    by_cases hact : s.policyConfig.active = true
    · by_cases hmem : proof.txHash ∈ s.processedClaims
      · exact ⟨"Claim already processed", by simp [submitClaim, hact, hmem]⟩
      · by_cases hinc : 0 < (getUserInsurance s sender).incidentsRemaining
        · refine ⟨"panic: arithmetic underflow", ?_⟩
          have hinc0 := hinc
          simp only [getUserInsurance] at hinc
          simp [submitClaim, hact, hmem, hinc, hord]
          omega
        · refine ⟨"No incidents remaining", ?_⟩
          simp [submitClaim, hact, hmem]
          intro hcontra
          exact absurd hcontra hinc
    · refine ⟨"Policy not active", ?_⟩
      simp [submitClaim]
      intro hcontra
      exact absurd hcontra hact
  obtain ⟨msg, hmsg⟩ := herr
  refine ⟨⟨msg, hmsg⟩, by simp [applyClaim, hmsg], ?_⟩
  intro s' pay hk
  rw [hmsg] at hk
  exact Except.noConfusion hk

/-- Witness for C10: the malformed example claim (broadcast 100,
confirmation 99) reverts against the funded example state and leaves
it unchanged. -/
theorem submitClaim_underflow_reverts_witness :
    (∃ msg, submitClaim exampleState 1 200 exampleProofUnderflow = .error msg) ∧
    applyClaim exampleState 1 200 exampleProofUnderflow = exampleState := by
  obtain ⟨h1, h2, -⟩ := submitClaim_underflow_reverts exampleState 1 200
    exampleProofUnderflow (by decide)
  exact ⟨h1, h2⟩

/-- C9: on both broadcast paths — the `POST /tx/broadcast` route and
the intercepted `eth_sendRawTransaction` — the chain height is read
strictly before the transaction is forwarded, and it is exactly that
pre-forward height that is stored as the record's broadcast height;
hence against a monotone (real) chain any confirmation height observed
at or after the forward instant is at least the stored broadcast
height. -/
theorem broadcast_height_read_before_forward (chain : Nat → Nat) (t0 : Nat)
    (hmono : Monotone chain) :
    (txBroadcastRoute chain t0).heightReadAt < (txBroadcastRoute chain t0).forwardedAt ∧
    (txBroadcastRoute chain t0).storedBroadcastBlock
      = chain (txBroadcastRoute chain t0).heightReadAt ∧
    (∀ tc, (txBroadcastRoute chain t0).forwardedAt ≤ tc →
      (txBroadcastRoute chain t0).storedBroadcastBlock ≤ chain tc) ∧
    (handleTransactionBroadcast chain t0).heightReadAt
      < (handleTransactionBroadcast chain t0).forwardedAt ∧
    (handleTransactionBroadcast chain t0).storedBroadcastBlock
      = chain (handleTransactionBroadcast chain t0).heightReadAt ∧
    (∀ tc, (handleTransactionBroadcast chain t0).forwardedAt ≤ tc →
      (handleTransactionBroadcast chain t0).storedBroadcastBlock ≤ chain tc) := by
  refine ⟨by simp [txBroadcastRoute], rfl, ?_, by simp [handleTransactionBroadcast], rfl, ?_⟩
  · intro tc htc
    simp only [txBroadcastRoute] at htc ⊢
    exact hmono (by omega)
  · intro tc htc
    simp only [handleTransactionBroadcast] at htc ⊢
    exact hmono (by omega)

/-- Witness for C9 over the identity chain starting at instant 0: the
height read precedes the forward, and a confirmation observed at
instant 5 is at least the stored broadcast height. -/
theorem broadcast_height_read_before_forward_witness :
    (txBroadcastRoute (fun t => t) 0).heightReadAt
      < (txBroadcastRoute (fun t => t) 0).forwardedAt ∧
    (txBroadcastRoute (fun t => t) 0).storedBroadcastBlock ≤ (fun t : Nat => t) 5 := by
  have h := broadcast_height_read_before_forward (fun t => t) 0 (fun _ _ hab => hab)
  exact ⟨h.1, h.2.2.1 5 (by decide)⟩

/-- Running ledger operations distributes over concatenation. -/
theorem runCacheFrom_append (r : Option TxRecord) (ops1 ops2 : List CacheOp) :
    runCacheFrom r (ops1 ++ ops2) = runCacheFrom (runCacheFrom r ops1) ops2 := by
  simp [runCacheFrom, List.foldl_append]

/-- Running a block of positive-height broadcasts from an entry with
no delay and no confirmation height either does nothing (empty block)
or yields a broadcast-status record with no delay, no confirmation
height and a positive broadcast height. -/
theorem broadcasts_run (bs : List CacheOp) :
    ∀ r : Option TxRecord,
      (∀ op ∈ bs, isPosBroadcastOp op = true) →
      (∀ e, r = some e → e.delay = none ∧ e.confirmationBlock = none) →
      (runCacheFrom r bs = r ∧ bs = []) ∨
      (∃ e, runCacheFrom r bs = some e ∧ e.status = .broadcast ∧ e.delay = none ∧
        e.confirmationBlock = none ∧ ∃ hb, e.broadcastBlock = some hb ∧ 0 < hb) := by
  induction bs with
  | nil => intro r _ _; exact .inl ⟨rfl, rfl⟩
  | cons op rest ih =>
    intro r hall hr
    have hop : isPosBroadcastOp op = true := hall op (List.mem_cons_self _ _)
    match op, hop with
    | .broadcastOp hb ts, hop =>
      have hbpos : 0 < hb := by simpa [isPosBroadcastOp] using hop
      have hstep : runCacheFrom r (CacheOp.broadcastOp hb ts :: rest)
          = runCacheFrom (some (storeBroadcast r hb ts)) rest := rfl
      have hdel : (storeBroadcast r hb ts).delay = none := by
        cases r with
        | none => rfl
        | some e => simpa [storeBroadcast] using (hr e rfl).1
      have hconf : (storeBroadcast r hb ts).confirmationBlock = none := by
        cases r with
        | none => rfl
        | some e => simpa [storeBroadcast] using (hr e rfl).2
      have hrec := ih (some (storeBroadcast r hb ts))
        (fun o ho => hall o (List.mem_cons_of_mem _ ho))
        (fun e he => by
          cases he
          exact ⟨hdel, hconf⟩)
      rw [hstep]
      rcases hrec with ⟨heq, -⟩ | ⟨e, he, h1, h2, h3, h4⟩
      · refine .inr ⟨storeBroadcast r hb ts, heq, rfl, hdel, hconf, hb, rfl, hbpos⟩
      · exact .inr ⟨e, he, h1, h2, h3, h4⟩

/-- C7 counterexample: the ledger's claimed invariants fail on the
call sequence broadcast(5), confirm(9), broadcast(7) for one hash.
After the confirmation the record is Confirmed, but the later
`storeBroadcast` resets its status to Broadcast — so Confirmed is not
terminal — while the spread keeps the stale `delay = 4`, so the delay
field is present on a record that is not Confirmed. -/
theorem cacheRecord_invariant_counterexample :
    (runCacheOps [CacheOp.broadcastOp 5 0, CacheOp.confirmOp 9 1]).map TxRecord.status
      = some TxStatus.confirmed ∧
    (runCacheOps [CacheOp.broadcastOp 5 0, CacheOp.confirmOp 9 1,
        CacheOp.broadcastOp 7 2]).map TxRecord.status = some TxStatus.broadcast ∧
    (runCacheOps [CacheOp.broadcastOp 5 0, CacheOp.confirmOp 9 1,
        CacheOp.broadcastOp 7 2]).map TxRecord.delay = some (some 4) :=
  ⟨rfl, rfl, rfl⟩

/-- C7 amended: for call sequences that follow the intended per-record
lifecycle — positive-height broadcasts, optionally closed by a single
confirmation or failure — the delay field is present if and only if
the record's status is Confirmed and both heights are present.
Terminality of Confirmed/Failed does not hold in general (see the
counterexample); what holds for arbitrary sequences is that a record's
status is always the one written by the last operation applied to it. -/
theorem cacheRecord_invariant_amended :
    (∀ ops, LifecycleOps ops → ∀ r, runCacheOps ops = some r →
      (r.delay.isSome = true ↔
        r.status = TxStatus.confirmed ∧ r.broadcastBlock.isSome = true ∧
        r.confirmationBlock.isSome = true)) ∧
    (∀ ops op r, runCacheOps (ops ++ [op]) = some r → r.status = opStatus op) := by
  constructor
  · rintro ops ⟨bs, t, rfl, hbs, ht⟩ r hr
    rw [runCacheOps, runCacheFrom_append] at hr
    have hmid := broadcasts_run bs none hbs (fun e he => by cases he)
    rcases hmid with ⟨heq, -⟩ | ⟨e, he, hst, hdel, hconf, hb, hbb, hbpos⟩
    · rw [heq] at hr
      rcases ht with rfl | ⟨op, rfl, hterm⟩
      · simp [runCacheFrom] at hr
      · have hrr : r = applyCacheOp none op := by
          simp [runCacheFrom] at hr
          exact hr.symm
        subst hrr
        cases op with
        | broadcastOp hh tt => simp [isTerminalOp] at hterm
        | confirmOp hh tt => simp [applyCacheOp, storeConfirmation]
        | failOp m tt => simp [applyCacheOp, storeFailure]
    · rw [he] at hr
      rcases ht with rfl | ⟨op, rfl, hterm⟩
      · have hrr : r = e := by
          simp [runCacheFrom] at hr
          exact hr.symm
        subst hrr
        simp [hst, hdel]
      · have hrr : r = applyCacheOp (some e) op := by
          simp [runCacheFrom] at hr
          exact hr.symm
        subst hrr
        cases op with
        | broadcastOp hh tt => simp [isTerminalOp] at hterm
        | confirmOp hh tt =>
          have htr : truthyHeight (some hb) = true := by
            simp [truthyHeight]
            omega
          simp [applyCacheOp, storeConfirmation, hbb, htr]
        | failOp m tt => simp [applyCacheOp, storeFailure, hdel]
  · intro ops op r hr
    rw [runCacheOps, runCacheFrom_append] at hr
    have hrr : r = applyCacheOp (runCacheFrom none ops) op := by
      simp [runCacheFrom] at hr
      exact hr.symm
    subst hrr
    cases op <;> rfl

/-- Witness for C7 (amended) on the lifecycle sequence broadcast(5),
confirm(9): the resulting record satisfies the delay/status/heights
equivalence. -/
theorem cacheRecord_invariant_amended_witness :
    ∃ r, runCacheOps [CacheOp.broadcastOp 5 0, CacheOp.confirmOp 9 1] = some r ∧
      (r.delay.isSome = true ↔
        r.status = TxStatus.confirmed ∧ r.broadcastBlock.isSome = true ∧
        r.confirmationBlock.isSome = true) := by
  have hlc : LifecycleOps [CacheOp.broadcastOp 5 0, CacheOp.confirmOp 9 1] := by
    refine ⟨[CacheOp.broadcastOp 5 0], [CacheOp.confirmOp 9 1], rfl, ?_, ?_⟩
    · intro op hop
      rcases List.mem_singleton.mp hop with rfl
      rfl
    · exact .inr ⟨CacheOp.confirmOp 9 1, rfl, rfl⟩
  have h := cacheRecord_invariant_amended.1 [CacheOp.broadcastOp 5 0, CacheOp.confirmOp 9 1]
    hlc (storeConfirmation (some (storeBroadcast none 5 0)) 9 1) rfl
  exact ⟨storeConfirmation (some (storeBroadcast none 5 0)) 9 1, rfl, h⟩

/-- If every poll within the budget is pending, the background monitor
loop exhausts its budget and times out (leaving the record in
broadcast state). -/
theorem monitorBgLoop_all_pending (poll : Nat → PollResult) :
    ∀ fuel i, (∀ k, k < fuel → poll (i + k) = .pendingPoll) →
      monitorBgLoop poll i fuel = .timedOut := by
  intro fuel
  induction fuel with
  | zero => intro i _; rfl
  | succ fuel ih =>
    intro i hall
    have h0 : poll i = .pendingPoll := by
      have := hall 0 (by omega)
      simpa using this
    rw [monitorBgLoop, h0]
    refine ih (i + 1) ?_
    intro k hk
    have := hall (k + 1) (by omega)
    have harith : i + (k + 1) = i + 1 + k := by omega
    rwa [harith] at this

/-- If every poll within the budget is pending, `monitorTransaction`'s
loop exhausts its budget and times out. -/
theorem monitorTxLoop_all_pending (poll : Nat → PollResult) :
    ∀ fuel i, (∀ k, k < fuel → poll (i + k) = .pendingPoll) →
      monitorTxLoop poll i fuel = .timedOut := by
  intro fuel
  induction fuel with
  | zero => intro i _; rfl
  | succ fuel ih =>
    intro i hall
    have h0 : poll i = .pendingPoll := by
      have := hall 0 (by omega)
      simpa using this
    rw [monitorTxLoop, h0]
    cases fuel with
    | zero => rfl
    | succ fuel' =>
      have hne : ¬ (fuel' + 1 = 0) := by omega
      simp only [hne, if_false]
      refine ih (i + 1) ?_
      intro k hk
      have := hall (k + 1) (by omega)
      have harith : i + (k + 1) = i + 1 + k := by omega
      rwa [harith] at this

/-- The background monitor loop stores a failure exactly when some
poll within the budget throws and every earlier poll was pending: the
first thrown error is terminal, with no retry. -/
theorem monitorBgLoop_failed_iff (poll : Nat → PollResult) :
    ∀ fuel i, (monitorBgLoop poll i fuel = .failed ↔
      ∃ k, k < fuel ∧ poll (i + k) = .errorPoll ∧
        ∀ j, j < k → poll (i + j) = .pendingPoll) := by
  intro fuel
  induction fuel with
  | zero =>
    intro i
    constructor
    · intro h
      exact absurd h (by simp [monitorBgLoop])
    · rintro ⟨k, hk, -, -⟩
      omega
  | succ fuel ih =>
    intro i
    rw [monitorBgLoop]
    cases hp : poll i with
    | receipt h =>
      constructor
      · intro hcon
        exact absurd hcon (by simp)
      · rintro ⟨k, hk, hke, hkp⟩
        cases k with
        | zero => rw [Nat.add_zero] at hke; rw [hp] at hke; cases hke
        | succ k' =>
          have := hkp 0 (by omega)
          rw [Nat.add_zero] at this
          rw [hp] at this
          cases this
    | errorPoll =>
      constructor
      · intro _
        exact ⟨0, by omega, by simpa using hp, by intro j hj; omega⟩
      · intro _
        rfl
    | pendingPoll =>
      rw [ih (i + 1)]
      constructor
      · rintro ⟨k, hk, hke, hkp⟩
        refine ⟨k + 1, by omega, ?_, ?_⟩
        · have harith : i + (k + 1) = i + 1 + k := by omega
          rwa [harith]
        · intro j hj
          cases j with
          | zero => simpa using hp
          | succ j' =>
            have := hkp j' (by omega)
            have harith : i + (j' + 1) = i + 1 + j' := by omega
            rwa [harith]
      · rintro ⟨k, hk, hke, hkp⟩
        cases k with
        | zero =>
          rw [Nat.add_zero, hp] at hke
          cases hke
        | succ k' =>
          refine ⟨k', by omega, ?_, ?_⟩
          · have harith : i + (k' + 1) = i + 1 + k' := by omega
            rwa [harith] at hke
          · intro j hj
            have := hkp (j + 1) (by omega)
            have harith : i + (j + 1) = i + 1 + j := by omega
            rwa [harith] at this

/-- `monitorTransaction`'s loop stores a failure exactly when every
attempt before the last one is pending or throws (and so is retried)
and the final attempt itself throws. -/
theorem monitorTxLoop_failed_iff (poll : Nat → PollResult) :
    ∀ fuel i, 0 < fuel → (monitorTxLoop poll i fuel = .failed ↔
      (∀ k, k < fuel - 1 → (poll (i + k) = .pendingPoll ∨ poll (i + k) = .errorPoll)) ∧
      poll (i + (fuel - 1)) = .errorPoll) := by
  intro fuel
  induction fuel with
  | zero => intro i h; omega
  | succ fuel ih =>
    intro i _
    rw [monitorTxLoop]
    simp only [Nat.add_sub_cancel]
    cases hp : poll i with
    | receipt h =>
      constructor
      · intro hcon
        exact absurd hcon (by simp)
      · rintro ⟨hall, hlast⟩
        cases fuel with
        | zero =>
          rw [Nat.add_zero, hp] at hlast
          cases hlast
        | succ fuel' =>
          have h0 := hall 0 (by omega)
          rw [Nat.add_zero, hp] at h0
          rcases h0 with h0 | h0 <;> cases h0
    | pendingPoll =>
      cases fuel with
      | zero =>
        simp only [if_pos rfl]
        constructor
        · intro hcon
          cases hcon
        · rintro ⟨-, hlast⟩
          rw [Nat.add_zero, hp] at hlast
          cases hlast
      | succ fuel' =>
        have hne : ¬ (fuel' + 1 = 0) := by omega
        rw [if_neg hne, ih (i + 1) (by omega)]
        simp only [Nat.add_sub_cancel]
        constructor
        · rintro ⟨hall, hlast⟩
          refine ⟨?_, ?_⟩
          · intro k hk
            cases k with
            | zero =>
              rw [Nat.add_zero, hp]
              exact .inl rfl
            | succ k' =>
              have := hall k' (by omega)
              have harith : i + (k' + 1) = i + 1 + k' := by omega
              rwa [harith]
          · have harith : i + (fuel' + 1) = i + 1 + fuel' := by omega
            rwa [harith]
        · rintro ⟨hall, hlast⟩
          refine ⟨?_, ?_⟩
          · intro k hk
            have := hall (k + 1) (by omega)
            have harith : i + (k + 1) = i + 1 + k := by omega
            rwa [harith] at this
          · have harith : i + (fuel' + 1) = i + 1 + fuel' := by omega
            rwa [harith] at hlast
    | errorPoll =>
      cases fuel with
      | zero =>
        simp only [if_pos rfl]
        constructor
        · intro _
          exact ⟨by intro k hk; omega, by rw [Nat.add_zero]; exact hp⟩
        · intro _
          rfl
      | succ fuel' =>
        have hne : ¬ (fuel' + 1 = 0) := by omega
        dsimp only
        rw [if_neg hne, ih (i + 1) (by omega)]
        simp only [Nat.add_sub_cancel]
        constructor
        · rintro ⟨hall, hlast⟩
          refine ⟨?_, ?_⟩
          · intro k hk
            cases k with
            | zero =>
              rw [Nat.add_zero, hp]
              exact .inr rfl
            | succ k' =>
              have := hall k' (by omega)
              have harith : i + (k' + 1) = i + 1 + k' := by omega
              rwa [harith]
          · have harith : i + (fuel' + 1) = i + 1 + fuel' := by omega
            rwa [harith]
        · rintro ⟨hall, hlast⟩
          refine ⟨?_, ?_⟩
          · intro k hk
            have := hall (k + 1) (by omega)
            have harith : i + (k + 1) = i + 1 + k := by omega
            rwa [harith] at this
          · have harith : i + (fuel' + 1) = i + 1 + fuel' := by omega
            rwa [harith] at hlast

/-- C8 counterexample: `monitorTransactionInBackground` marks the
record Failed on the very first poll error, after a single attempt of
its 60-attempt budget — the error has not recurred up to the budget
(the second poll is pending and is never made). -/
theorem monitor_failure_retry_counterexample :
    monitorTransactionInBackground
      (fun i => if i = 0 then PollResult.errorPoll else PollResult.pendingPoll)
      = MonitorOutcome.failed ∧
    (fun i => if i = 0 then PollResult.errorPoll else PollResult.pendingPoll) 1
      = PollResult.pendingPoll ∧
    (1 : Nat) < 60 :=
  ⟨rfl, rfl, by norm_num⟩

/-- C8 amended: exhausting the attempt budget with only pending polls
leaves both monitor loops in a timeout (the record stays in Broadcast
status); `monitorTransactionInBackground` marks Failed exactly when
some poll within the budget throws with all earlier polls pending —
i.e. immediately at the first error, with no retry; and
`monitorTransaction` retries errors like pendings and marks Failed
exactly when the 60th attempt itself throws after 59 non-receipt
attempts. -/
theorem monitor_failure_retry_amended (poll : Nat → PollResult) :
    ((∀ i, i < 60 → poll i = .pendingPoll) →
      monitorTransactionInBackground poll = .timedOut ∧
      monitorTransaction poll = .timedOut) ∧
    (monitorTransactionInBackground poll = .failed ↔
      ∃ k, k < 60 ∧ poll k = .errorPoll ∧ ∀ j, j < k → poll j = .pendingPoll) ∧
    (monitorTransaction poll = .failed ↔
      (∀ k, k < 59 → (poll k = .pendingPoll ∨ poll k = .errorPoll)) ∧
      poll 59 = .errorPoll) := by
  refine ⟨?_, ?_, ?_⟩
  · intro hall
    constructor
    · exact monitorBgLoop_all_pending poll 60 0 (fun k hk => by simpa using hall k hk)
    · exact monitorTxLoop_all_pending poll 60 0 (fun k hk => by simpa using hall k hk)
  · have h := monitorBgLoop_failed_iff poll 60 0
    simp only [Nat.zero_add] at h
    exact h
  · have h := monitorTxLoop_failed_iff poll 60 0 (by omega)
    simp only [Nat.zero_add] at h
    norm_num at h
    exact h

/-- Witness for C8 (amended): with every poll pending, both monitor
loops exhaust the budget and time out without storing a failure. -/
theorem monitor_failure_retry_amended_witness :
    monitorTransactionInBackground (fun _ => PollResult.pendingPoll) = MonitorOutcome.timedOut ∧
    monitorTransaction (fun _ => PollResult.pendingPoll) = MonitorOutcome.timedOut :=
  (monitor_failure_retry_amended (fun _ => PollResult.pendingPoll)).1 (fun _ _ => rfl)
